import Mathlib

/-!
Verification of the filesystem-tree puzzle solver (`src/day_7.rs`).

The Rust code builds an in-memory directory tree out of `Rc<RefCell<DirectoryEntry>>`
nodes with weak parent back-references, replays shell-like commands against a cursor,
and answers two aggregate size queries.

Shallow embedding used here:
  * a `DirectoryEntry` is a pure inductive value (a `Folder` holds an association
    list of named children, in insertion order; a `File` holds its size);
  * the cursor is a path (list of child names) from the root, since every node of
    the Rust tree is reachable from the root by a unique name path and each child's
    weak parent pointer is set, at insertion, to the folder that contains it —
    `get_parent` therefore corresponds exactly to dropping the last path component;
  * in-place mutation through a shared handle becomes a functional update of the
    subtree at the cursor path (each node occurs exactly once in the tree, so the
    two coincide);
  * raw text is a `List Char` (the inputs of interest are ASCII, so Rust's byte
    indexing coincides with character indexing);
  * Rust panics (out-of-bounds byte slices) are modelled as an explicit error value.

File sizes are modelled as `Nat`.  The one place the program converts text to a
machine integer — `parse::<u32>().unwrap()` on an entry line's size, which
panics when the digit run exceeds `u32::MAX` — is modelled with an explicit
check against `2 ^ 32` and a panic value.  The remaining `u32` arithmetic (size
summation) is pure addition of already-stored sizes, where the claims proved
here relate the program's own computations on both sides of each identity.
-/

namespace Day7

/-- `DirectoryEntry` from `day_7.rs` (lines 21-24): either a `Folder` with a map of
named children, or a `File` with a size.  The `HashMap<String, DirectoryNode>` is
modelled as an association list in insertion order; the weak parent references are
represented by the path model (see the header comment), not stored in the node. -/
inductive DirectoryEntry where
  | Folder (children : List (List Char × DirectoryEntry))
  | File (size : Nat)

instance : Inhabited DirectoryEntry := ⟨.Folder []⟩

/-- Lookup of a child by name in a children list — the model of
`children.entry(name)` being occupied (`HashMap` key lookup). -/
def findChild : List (List Char × DirectoryEntry) → List Char → Option DirectoryEntry
  | [], _ => none
  | c :: rest, name => if c.1 = name then some c.2 else findChild rest name

/-- The model of `children.entry(name).or_insert(v)`: insert `v` under `name` only
if no child of that name exists (first write wins). -/
def entryOrInsert (cs : List (List Char × DirectoryEntry)) (name : List Char)
    (v : DirectoryEntry) : List (List Char × DirectoryEntry) :=
  match findChild cs name with
  | some _ => cs
  | none => cs ++ [(name, v)]

/-- `DirectoryNode::add_subfile` (lines 101-114): inserts a `File` child if the name
is free; a silent no-op on a `File` node (the `if let Folder` guard fails). -/
def add_subfile (e : DirectoryEntry) (name : List Char) (size : Nat) : DirectoryEntry :=
  match e with
  | .Folder cs => .Folder (entryOrInsert cs name (.File size))
  | .File s => .File s

/-- `DirectoryNode::add_subfolder` (lines 117-129): inserts an empty `Folder` child
if the name is free; a silent no-op on a `File` node. -/
def add_subfolder (e : DirectoryEntry) (name : List Char) : DirectoryEntry :=
  match e with
  | .Folder cs => .Folder (entryOrInsert cs name (.Folder []))
  | .File s => .File s

mutual

/-- `DirectoryNode::get_all_directory_sizes` (lines 143-167): returns the list of
all directory sizes in the subtree (children first, then this node if it is a
folder) together with the size of this node. -/
def get_all_directory_sizes : DirectoryEntry → List Nat × Nat
  | .File i => ([], i)
  | .Folder cs =>
      let p := sizesOfChildren cs
      (p.1 ++ [p.2], p.2)

/-- The fold over the children iterator inside `get_all_directory_sizes`
(lines 155-159): concatenates the children's size lists and sums their sizes. -/
def sizesOfChildren : List (List Char × DirectoryEntry) → List Nat × Nat
  | [] => ([], 0)
  | c :: rest =>
      let p := get_all_directory_sizes c.2
      let q := sizesOfChildren rest
      (p.1 ++ q.1, p.2 + q.2)

end

/-- `DirectoryNode::calculate_size` (lines 133-136). -/
def calculate_size (e : DirectoryEntry) : Nat :=
  (get_all_directory_sizes e).2

/-- `DirectoryNode::smallest_directory_size_over_min` (lines 170-173). -/
def smallest_directory_size_over_min (e : DirectoryEntry) (minimum_size : Nat) :
    Option Nat :=
  (((get_all_directory_sizes e).1).filter (fun x => minimum_size < x)).min?

/-- `DirectoryNode::sum_directory_sizes_under_max` (lines 177-180). -/
def sum_directory_sizes_under_max (e : DirectoryEntry) (maximum_size : Nat) : Nat :=
  ((((get_all_directory_sizes e).1).filter (fun x => x < maximum_size)).sum)

/-! ## Cursor-as-path model of node handles

A live `DirectoryNode` handle is identified by the name path from the root to the
node it shares ownership of.  The root handle is the empty path. -/

/-- A cursor: the name path from the root to the current node. -/
abbrev Path := List (List Char)

/-- The node a path points at, if the path exists in the tree. -/
def nodeAt : DirectoryEntry → Path → Option DirectoryEntry
  | e, [] => some e
  | .Folder cs, name :: rest =>
      match findChild cs name with
      | some c => nodeAt c rest
      | none => none
  | .File _, _ :: _ => none

mutual

/-- Functional update of the subtree at a path: the model of an in-place mutation
performed through a shared handle (each node occurs exactly once in the tree). -/
def modifyAt : DirectoryEntry → Path → (DirectoryEntry → DirectoryEntry) →
    DirectoryEntry
  | e, [], f => f e
  | .Folder cs, name :: rest, f => .Folder (modifyChild cs name rest f)
  | .File s, _ :: _, _ => .File s

/-- Applies an update inside the (unique) child of a given name. -/
def modifyChild : List (List Char × DirectoryEntry) → List Char → Path →
    (DirectoryEntry → DirectoryEntry) → List (List Char × DirectoryEntry)
  | [], _, _, _ => []
  | c :: tail, name, rest, f =>
      if c.1 = name then (c.1, modifyAt c.2 rest f) :: tail
      else c :: modifyChild tail name rest f

end

/-- `DirectoryNode::get_parent` (lines 212-228) in the path model: the weak parent
reference of a node at path `p` points at the folder that inserted it, i.e. the
node at `p.dropLast`; the root (empty path) has no parent (its field is `None`).
While the root is kept alive — always, in this model — upgrading never fails. -/
def getParentPath (p : Path) : Option Path :=
  match p with
  | [] => none
  | _ :: _ => some p.dropLast

/-- `DirectoryNode::get_root` (lines 232-238): follow parents while one exists. -/
def get_root_path (p : Path) : Path :=
  match p with
  | [] => []
  | x :: xs => get_root_path (x :: xs).dropLast
termination_by p.length
decreasing_by
  simp only [List.dropLast_cons_of_ne_nil, List.length_dropLast, List.length_cons]
  omega

/-- Errors of the replay: `DirectoryEntryNotExistError`, `DirectoryEntryTypeError`
(lines 357-373), the `regex::Error::Syntax` value carrying the offending text
(lines 272, 351), the two Rust panics — an out-of-bounds byte slice (line 348 on
a bare `ls` line) and an entry-line size overflowing `u32` in
`parse::<u32>().unwrap()` (line 266) — and a junk marker for a dangling cursor
path (unreachable: every handle the program creates is a valid path). -/
inductive CmdError where
  | notExist
  | wrongType
  | noMatch (text : List Char)
  | sliceOutOfBounds
  | numericOverflow
  | invalidCursor
deriving DecidableEq

/-- `DirectoryNode::get_subfolder` (lines 189-208) in the path model: requires the
current node to be a `Folder`, then returns a handle to the named child — of
either variant, the code never checks — or `DirectoryEntryNotExistError`. -/
def get_subfolder_path (fs : DirectoryEntry) (p : Path) (name : List Char) :
    Except CmdError Path :=
  match nodeAt fs p with
  | some (.Folder cs) =>
      match findChild cs name with
      | some _ => .ok (p ++ [name])
      | none => .error .notExist
  | some (.File _) => .error .wrongType
  | none => .error .invalidCursor

/-! ## Command parser (`ParsedCommand::from_line`, lines 306-353) -/

/-- `ParsedCommand` (lines 27-32). -/
inductive ParsedCommand where
  | CdIntoFolder (name : List Char)
  | CdOutOfFolder
  | CdToRoot
  | Ls (entries : List (List Char))
deriving DecidableEq

/-- Rust `str::trim`: strip whitespace from both ends. -/
def trim (l : List Char) : List Char :=
  ((l.dropWhile Char.isWhitespace).reverse.dropWhile Char.isWhitespace).reverse

/-- A regex `\w` character (word character). -/
def isWordChar (c : Char) : Bool :=
  c.isAlphanum || c == '_'

/-- `REGEX_COMMAND_CDINTO.is_match`, pattern `^cd\s(\w+)` (line 335): the text
starts with `cd`, one whitespace character, and at least one word character. -/
def matchesCdInto (l : List Char) : Bool :=
  match l with
  | 'c' :: 'd' :: w :: x :: _ => w.isWhitespace && isWordChar x
  | _ => false

/-- `ParsedCommand::from_line` (lines 314-352).  The four regexes are anchored
only at the start, so each test is a prefix test on the trimmed line; the first
match wins.  `l[3..]` is a byte slice that panics when the trimmed line is
shorter than 3 bytes — possible only in the `ls` branch (the bare line `ls`),
and modelled as `CmdError.sliceOutOfBounds`. -/
def from_line (l : List Char) : Except CmdError ParsedCommand :=
  let t := trim l
  if ("cd /".data).isPrefixOf t then .ok .CdToRoot
  else if ("cd ..".data).isPrefixOf t then .ok .CdOutOfFolder
  else if matchesCdInto t then .ok (.CdIntoFolder (trim (t.drop 3)))
  else if ("ls".data).isPrefixOf t then
    if t.length < 3 then .error .sliceOutOfBounds
    else .ok (.Ls (((trim (t.drop 3)).splitOn '\n').map trim))
  else .error (.noMatch t)

/-! ## Directory-entry lines (`parse_line_to_directoryentry`, lines 244-274) -/

/-- A `[\w\.]` character (word character or dot), as in both entry regexes. -/
def isWordDotChar (c : Char) : Bool :=
  isWordChar c || c == '.'

/-- Full match of `^dir\s([\w\.]+)$` (line 251): `dir`, one whitespace character,
then a nonempty run of word-or-dot characters to the end; yields the name. -/
def dirEntryMatch (l : List Char) : Option (List Char) :=
  match l with
  | 'd' :: 'i' :: 'r' :: w :: rest =>
      if w.isWhitespace && !rest.isEmpty && rest.all isWordDotChar then some rest
      else none
  | _ => none

/-- Numeric value of a digit run, as decimal parsing computes it (as a `Nat`;
the `u32` bound of the source's `parse::<u32>()` is checked at the use site,
where exceeding it panics). -/
def natOfDigits (ds : List Char) : Nat :=
  ds.foldl (fun n c => 10 * n + (c.toNat - '0'.toNat)) 0

/-- Full match of `^(\d+)\s([\w\.]+)$` (line 262): a nonempty digit run, one
whitespace character, then a nonempty run of word-or-dot characters to the end;
yields the two captures, the digit run and the name.  (The digit run of any
match is necessarily the maximal digit run, since `\s` matches no digit.) -/
def fileEntryMatch (l : List Char) : Option (List Char × List Char) :=
  let ds := l.takeWhile Char.isDigit
  match l.drop ds.length with
  | w :: rest =>
      if !ds.isEmpty && w.isWhitespace && !rest.isEmpty && rest.all isWordDotChar then
        some (ds, rest)
      else none
  | [] => none

/-- `DirectoryNode::parse_line_to_directoryentry` (lines 244-274): trim the line,
then try the folder regex, then the file regex, else a syntax error carrying the
line.  On a file-entry match, `size.as_str().parse::<u32>().unwrap()` (line 266)
panics — modelled as `numericOverflow` — whenever the digit run's value exceeds
`u32::MAX`, i.e. is not `< 2 ^ 32`.  The insertions are silent no-ops when
`self` is a `File`. -/
def parse_line_to_directoryentry (e : DirectoryEntry) (line : List Char) :
    Except CmdError DirectoryEntry :=
  let t := trim line
  match dirEntryMatch t with
  | some name => .ok (add_subfolder e name)
  | none =>
      match fileEntryMatch t with
      | some dn =>
          if natOfDigits dn.1 < 2 ^ 32 then .ok (add_subfile e dn.2 (natOfDigits dn.1))
          else .error .numericOverflow
      | none => .error (.noMatch t)

/-- Whether an entry line is successfully applied by
`parse_line_to_directoryentry` (a property of the line alone: the node only
determines whether the insertion has an effect): it matches the folder regex,
or matches the file regex with a size that fits in a `u32`. -/
def lineParses (line : List Char) : Bool :=
  (dirEntryMatch (trim line)).isSome ||
  (match fileEntryMatch (trim line) with
   | some dn => decide (natOfDigits dn.1 < 2 ^ 32)
   | none => false)

/-- Whether an entry line matches neither entry regex — the spec's "unparseable"
line, on which `parse_line_to_directoryentry` returns the syntax error carrying
the trimmed line. -/
def lineUnparseable (line : List Char) : Bool :=
  !(dirEntryMatch (trim line)).isSome && !(fileEntryMatch (trim line)).isSome

/-! ## Command interpreter (`DirectoryNode::command`, lines 279-300) -/

/-- The `for line in files` loop of the `Ls` branch (lines 292-297), acting on
the cursor node: each parsed entry is inserted in turn; the first unparseable
line aborts with its error, keeping the insertions made so far. -/
def runLsNode (n : DirectoryEntry) : List (List Char) → DirectoryEntry × Option CmdError
  | [] => (n, none)
  | line :: rest =>
      match parse_line_to_directoryentry n line with
      | .ok n' => runLsNode n' rest
      | .error e => (n, some e)

/-- `DirectoryNode::command` (lines 279-300) in the (tree, cursor-path) model:
returns the tree after the command (the tree is mutated only by `Ls`) and the
new cursor, or the error.  On error the tree component still holds any
insertions already made (the Rust mutations are in place). -/
def command (fs : DirectoryEntry) (p : Path) :
    ParsedCommand → DirectoryEntry × Except CmdError Path
  | .CdIntoFolder name => (fs, get_subfolder_path fs p name)
  | .CdOutOfFolder =>
      (fs, .ok (match getParentPath p with
                | some q => q
                | none => p))
  | .CdToRoot => (fs, .ok (get_root_path p))
  | .Ls files =>
      match nodeAt fs p with
      | some n =>
          match runLsNode n files with
          | (n', none) => (modifyAt fs p (fun _ => n'), .ok p)
          | (n', some e) => (modifyAt fs p (fun _ => n'), .error e)
      | none => (fs, .error .invalidCursor)

/-- The replay loop of `run` (lines 63-66): apply commands in order to the
cursor, aborting on the first error. -/
def replay (fs : DirectoryEntry) (p : Path) :
    List ParsedCommand → DirectoryEntry × Except CmdError Path
  | [] => (fs, .ok p)
  | c :: rest =>
      match command fs p c with
      | (fs', .ok p') => replay fs' p' rest
      | (fs', .error e) => (fs', .error e)

example : calculate_size (.Folder [(['a'], .File 3), (['b'], .Folder [(['c'], .File 4)])]) = 7 := by
  decide

example : get_root_path [['a'], ['b']] = [] := by
  simp [get_root_path]

/-! ## Spec-side definitions, for comparison with the code -/

mutual

/-- The directory (`Folder`) nodes of a subtree, children first, then the node
itself when it is a folder — the population whose `total_size` values the spec's
aggregate queries range over. -/
def allFolders : DirectoryEntry → List DirectoryEntry
  | .File _ => []
  | .Folder cs => allFoldersOfChildren cs ++ [.Folder cs]

/-- `allFolders` over a children list, in order. -/
def allFoldersOfChildren : List (List Char × DirectoryEntry) → List DirectoryEntry
  | [] => []
  | c :: rest => allFolders c.2 ++ allFoldersOfChildren rest

end

/-- Modelled from the spec: a FULL match of one of the four recognized grammars
of §4.1 — the exact line `cd /`, the exact line `cd ..`, `cd <name>` with
`<name>` one or more word characters, or `ls` alone or followed by
newline-separated entry lines.  (The code's regexes, by contrast, are anchored
only at the start.) -/
def specGrammarFullMatch (l : List Char) : Bool :=
  (l == "cd /".data) || (l == "cd ..".data) ||
  (match l with
   | 'c' :: 'd' :: ' ' :: rest => !rest.isEmpty && rest.all isWordChar
   | _ => false) ||
  (l == "ls".data) || (("ls\n".data).isPrefixOf l) || (("ls \n".data).isPrefixOf l)

example : from_line "cd ..".data = .ok .CdOutOfFolder := rfl

example : from_line "ls \n 100 a.txt\n dir b".data =
    .ok (.Ls ["100 a.txt".data, "dir b".data]) := rfl

example : from_line "ls".data = .error .sliceOutOfBounds := rfl

example : parse_line_to_directoryentry (.Folder []) "4294967295 f".data
    = .ok (.Folder [("f".data, .File 4294967295)]) := rfl

example : parse_line_to_directoryentry (.Folder []) "4294967296 f".data
    = .error .numericOverflow := rfl

example : lineParses "4294967296 f".data = false := rfl

example : lineUnparseable "4294967296 f".data = false := rfl

/-! ## Helper lemmas -/

/-- The second component of the children fold is the sum of the children's own
computed sizes. -/
theorem sizesOfChildren_snd (cs : List (List Char × DirectoryEntry)) :
    (sizesOfChildren cs).2 = (cs.map (fun c => calculate_size c.2)).sum := by
  induction cs with
  | nil => simp [sizesOfChildren]
  | cons c rest ih => simp [sizesOfChildren, calculate_size, ih]

mutual

/-- The size list of `get_all_directory_sizes` is exactly the `calculate_size`
of every folder node of the subtree (children first, then the node itself). -/
theorem sizes_fst_eq (e : DirectoryEntry) :
    (get_all_directory_sizes e).1 = (allFolders e).map calculate_size := by
  match e with
  | .File s => simp [get_all_directory_sizes, allFolders]
  | .Folder cs =>
      have h := sizesChildren_fst_eq cs
      have h2 : (sizesOfChildren cs).2 = calculate_size (.Folder cs) := by
        simp [calculate_size, get_all_directory_sizes]
      simp [get_all_directory_sizes, allFolders, h, h2]

/-- Companion of `sizes_fst_eq` for children lists. -/
theorem sizesChildren_fst_eq (cs : List (List Char × DirectoryEntry)) :
    (sizesOfChildren cs).1 = (allFoldersOfChildren cs).map calculate_size := by
  match cs with
  | [] => simp [sizesOfChildren, allFoldersOfChildren]
  | c :: rest =>
      have h1 := sizes_fst_eq c.2
      have h2 := sizesChildren_fst_eq rest
      simp [sizesOfChildren, allFoldersOfChildren, h1, h2]

end

/-! ## Claims -/

/-- C1: `calculate_size` of a file node is the file's own size, and of a
directory node it is the sum of the direct children's sizes, each file child
contributing its literal size and each subdirectory child its own
`calculate_size` — for every tree, hence in particular for every tree built by
`add_subfile`/`add_subfolder` calls, recursively to arbitrary depth. -/
theorem c1_total_size_is_sum_of_children (s : Nat)
    (cs : List (List Char × DirectoryEntry)) :
    calculate_size (DirectoryEntry.File s) = s ∧
    calculate_size (DirectoryEntry.Folder cs) =
      (cs.map (fun c => calculate_size c.2)).sum := by
  refine ⟨rfl, ?_⟩
  simp [calculate_size, get_all_directory_sizes, sizesOfChildren_snd]

/-- C4: `smallest_directory_size_over_min e m` is the minimum of
`calculate_size` over all directory nodes of the tree whose size is strictly
greater than `m`: it equals the `min?` of those sizes, it is `none` (an absent
value, not an error) exactly when no directory qualifies, and any returned value
is the size of a qualifying directory and a lower bound on all of them. -/
theorem c4_smallest_size_over_min_correct (e : DirectoryEntry) (m : Nat) :
    smallest_directory_size_over_min e m
      = (((allFolders e).map calculate_size).filter (fun x => m < x)).min? ∧
    (smallest_directory_size_over_min e m = none ↔
      ∀ f ∈ allFolders e, ¬ m < calculate_size f) ∧
    (∀ v, smallest_directory_size_over_min e m = some v →
      ((∃ f ∈ allFolders e, calculate_size f = v ∧ m < calculate_size f) ∧
       ∀ f ∈ allFolders e, m < calculate_size f → v ≤ calculate_size f)) := by
  have hfst := sizes_fst_eq e
  refine ⟨by simp [smallest_directory_size_over_min, hfst], ?_, ?_⟩
  · rw [smallest_directory_size_over_min, hfst, List.min?_eq_none_iff,
      List.filter_eq_nil_iff]
    simp
  · intro v hv
    rw [smallest_directory_size_over_min, hfst, List.min?_eq_some_iff'] at hv
    obtain ⟨hmem, hle⟩ := hv
    rcases List.mem_filter.mp hmem with ⟨hx, hpx⟩
    rcases List.mem_map.mp hx with ⟨f, hf, rfl⟩
    refine ⟨⟨f, hf, rfl, by simpa using hpx⟩, ?_⟩
    intro g hg hgm
    exact hle _ (List.mem_filter.mpr ⟨List.mem_map_of_mem _ hg, by simpa using hgm⟩)

/-- The cursor after one `CdOutOfFolder` command (which never fails). -/
def cdOutStep (fs : DirectoryEntry) (p : Path) : Path :=
  match (command fs p .CdOutOfFolder).2 with
  | .ok q => q
  | .error _ => p

theorem cdOutStep_eq (fs : DirectoryEntry) (p : Path) :
    cdOutStep fs p = match p with | [] => [] | _ :: _ => p.dropLast := by
  cases p <;> rfl

theorem get_root_path_eq_nil (p : Path) : get_root_path p = [] := by
  generalize h : p.length = n
  induction n generalizing p with
  | zero =>
      cases p with
      | nil => rw [get_root_path]
      | cons x xs => simp at h
  | succ n ih =>
      cases p with
      | nil => simp at h
      | cons x xs =>
          rw [get_root_path]
          exact ih _ (by simpa using h)

theorem cdOutStep_iter_eq_nil (fs : DirectoryEntry) :
    ∀ n (p : Path), p.length = n → (cdOutStep fs)^[n] p = [] := by
  intro n
  induction n with
  | zero =>
      intro p hp
      simp_all
  | succ n ih =>
      intro p hp
      match p with
      | x :: xs =>
          rw [Function.iterate_succ_apply, cdOutStep_eq]
          exact ih _ (by simpa using hp)

/-- C5: from a cursor at depth N below the root, N `CdOutOfFolder` steps land on
the empty path — the root, exactly where a single `CdToRoot` lands. -/
theorem c5_exit_to_parent_roundtrip (fs : DirectoryEntry) (p : Path) :
    (cdOutStep fs)^[p.length] p = [] ∧
    (command fs p .CdToRoot).2 = .ok ([] : Path) ∧
    nodeAt fs ([] : Path) = some fs := by
  refine ⟨cdOutStep_iter_eq_nil fs p.length p rfl, ?_, by cases fs <;> rfl⟩
  show Except.ok (get_root_path p) = _
  rw [get_root_path_eq_nil]

/-- Keys of a folder's children map (empty for a file). -/
def childrenKeys : DirectoryEntry → List (List Char)
  | .Folder cs => cs.map Prod.fst
  | .File _ => []

theorem findChild_eq_none_iff (cs : List (List Char × DirectoryEntry))
    (name : List Char) :
    findChild cs name = none ↔ name ∉ cs.map Prod.fst := by
  induction cs with
  | nil => simp [findChild]
  | cons c rest ih =>
      rw [findChild]
      by_cases h : c.1 = name
      · simp [h]
      · have h' : ¬ name = c.1 := fun he => h he.symm
        simp [h, h', ih]

theorem findChild_append_self (cs : List (List Char × DirectoryEntry))
    (name : List Char) (v : DirectoryEntry) (h : findChild cs name = none) :
    findChild (cs ++ [(name, v)]) name = some v := by
  induction cs with
  | nil => simp [findChild]
  | cons c rest ih =>
      rw [findChild] at h
      rw [List.cons_append, findChild]
      by_cases hc : c.1 = name
      · simp [hc] at h
      · simp only [hc, if_false] at h ⊢
        exact ih h

theorem entryOrInsert_idem (cs : List (List Char × DirectoryEntry))
    (name : List Char) (v w : DirectoryEntry) :
    entryOrInsert (entryOrInsert cs name v) name w = entryOrInsert cs name v := by
  cases h : findChild cs name with
  | some u => simp [entryOrInsert, h]
  | none => simp [entryOrInsert, h, findChild_append_self cs name v h]

/-- The number of children carrying a given key. -/
def countKey (ks : List (List Char)) (name : List Char) : Nat :=
  (ks.filter (fun k => k = name)).length

theorem countKey_nil (name : List Char) : countKey [] name = 0 := rfl

theorem countKey_cons (k name : List Char) (ks : List (List Char)) :
    countKey (k :: ks) name
      = (if k = name then 1 else 0) + countKey ks name := by
  by_cases h : k = name <;> simp [countKey, h, Nat.add_comm]

theorem countKey_eq_zero_of_not_mem (ks : List (List Char)) (name : List Char)
    (h : name ∉ ks) : countKey ks name = 0 := by
  induction ks with
  | nil => rfl
  | cons k ks ih =>
      rw [countKey_cons]
      have hk : ¬ k = name := fun he => h (by simp [he.symm])
      simp [hk]
      exact ih (fun hm => h (by simp [hm]))

theorem countKey_eq_one_of_nodup_mem (ks : List (List Char)) (name : List Char)
    (hd : ks.Nodup) (hm : name ∈ ks) : countKey ks name = 1 := by
  induction ks with
  | nil => simp at hm
  | cons k ks ih =>
      rw [countKey_cons]
      rcases List.mem_cons.mp hm with he | hm'
      · rw [if_pos he.symm,
          countKey_eq_zero_of_not_mem ks name (he ▸ (List.nodup_cons.mp hd).1)]
      · have hk : ¬ k = name := by
          intro he
          exact (List.nodup_cons.mp hd).1 (he ▸ hm')
        rw [if_neg hk, ih (List.nodup_cons.mp hd).2 hm']

theorem countKey_append (a b : List (List Char)) (name : List Char) :
    countKey (a ++ b) name = countKey a name + countKey b name := by
  simp [countKey]

theorem entryOrInsert_count (cs : List (List Char × DirectoryEntry))
    (name : List Char) (v : DirectoryEntry)
    (h : (cs.map Prod.fst).Nodup) :
    countKey ((entryOrInsert cs name v).map Prod.fst) name = 1 := by
  cases hf : findChild cs name with
  | some u =>
      have hmem : name ∈ cs.map Prod.fst := by
        by_contra hn
        rw [(findChild_eq_none_iff cs name).mpr hn] at hf
        cases hf
      rw [entryOrInsert, hf]
      exact countKey_eq_one_of_nodup_mem _ name h hmem
  | none =>
      have hmem : name ∉ cs.map Prod.fst := (findChild_eq_none_iff cs name).mp hf
      rw [entryOrInsert, hf, List.map_append, countKey_append,
        countKey_eq_zero_of_not_mem _ name hmem]
      simp [countKey]

/-- C6: re-inserting an existing name is a no-op (the first write wins, whatever
the second size is), and — for a directory with duplicate-free child names, as
every directory built by the insertion operations is — after an insertion there
is exactly one child of the inserted name; likewise for subfolders. -/
theorem c6_insertion_idempotent (cs : List (List Char × DirectoryEntry))
    (name : List Char) (s₁ s₂ : Nat)
    (h : (cs.map Prod.fst).Nodup) :
    add_subfile (add_subfile (.Folder cs) name s₁) name s₂
      = add_subfile (.Folder cs) name s₁ ∧
    add_subfolder (add_subfolder (.Folder cs) name) name
      = add_subfolder (.Folder cs) name ∧
    countKey (childrenKeys (add_subfile (.Folder cs) name s₁)) name = 1 ∧
    countKey (childrenKeys (add_subfolder (.Folder cs) name)) name = 1 := by
  refine ⟨?_, ?_, ?_, ?_⟩
  · show DirectoryEntry.Folder _ = DirectoryEntry.Folder _
    rw [entryOrInsert_idem]
  · show DirectoryEntry.Folder _ = DirectoryEntry.Folder _
    rw [entryOrInsert_idem]
  · exact entryOrInsert_count cs name _ h
  · exact entryOrInsert_count cs name _ h

/-- Witness for C6: inserting `a` twice into an empty directory. -/
theorem c6_insertion_idempotent_witness :
    add_subfile (add_subfile (.Folder []) ['a'] 1) ['a'] 2
      = add_subfile (.Folder []) ['a'] 1 ∧
    add_subfolder (add_subfolder (.Folder []) ['a']) ['a']
      = add_subfolder (.Folder []) ['a'] ∧
    countKey (childrenKeys (add_subfile (.Folder []) ['a'] 1)) ['a'] = 1 ∧
    countKey (childrenKeys (add_subfolder (.Folder []) ['a'])) ['a'] = 1 :=
  c6_insertion_idempotent [] ['a'] 1 2 (by simp)

/-- C7: the root's parent is absent (`None`), and `CdOutOfFolder` at the root
returns the unchanged cursor without failing. -/
theorem c7_root_boundary (fs : DirectoryEntry) :
    getParentPath ([] : Path) = none ∧
    command fs [] .CdOutOfFolder = (fs, .ok ([] : Path)) :=
  ⟨rfl, rfl⟩

/-- C2 (amended): the code's four regexes are anchored only at the start, so
`from_line` classifies the trimmed line by PREFIX, first match winning: it
either returns exactly one instruction, or fails with the syntax error carrying
the trimmed offending text — precisely when no prefix pattern matches — or, for
an `ls`-prefixed trimmed line shorter than 3 characters (the bare `ls` line),
panics on the byte slice `l[3..]`. -/
theorem c2_parser_prefix_semantics (l : List Char) :
    ((∃ c, from_line l = .ok c) ∨
      from_line l = .error (.noMatch (trim l)) ∨
      from_line l = .error .sliceOutOfBounds) ∧
    (from_line l = .error (.noMatch (trim l)) ↔
      (("cd /".data).isPrefixOf (trim l) = false ∧
       ("cd ..".data).isPrefixOf (trim l) = false ∧
       matchesCdInto (trim l) = false ∧
       ("ls".data).isPrefixOf (trim l) = false)) ∧
    (from_line l = .error .sliceOutOfBounds ↔
      (("cd /".data).isPrefixOf (trim l) = false ∧
       ("cd ..".data).isPrefixOf (trim l) = false ∧
       matchesCdInto (trim l) = false ∧
       ("ls".data).isPrefixOf (trim l) = true ∧
       (trim l).length < 3)) := by
  unfold from_line
  cases h1 : ("cd /".data).isPrefixOf (trim l) <;>
    cases h2 : ("cd ..".data).isPrefixOf (trim l) <;>
      cases h3 : matchesCdInto (trim l) <;>
        cases h4 : ("ls".data).isPrefixOf (trim l) <;>
          by_cases h5 : (trim l).length < 3 <;>
            simp [h1, h2, h3, h4, h5]

/-- Counterexample for C2 as stated: the line `cd /abc` full-matches none of the
four recognized grammars of the spec, yet the parser accepts it (as `GoToRoot`,
because the regex `^cd /` is only anchored at the start). -/
theorem c2_counterexample :
    from_line "cd /abc".data = .ok .CdToRoot ∧
    specGrammarFullMatch "cd /abc".data = false :=
  ⟨rfl, rfl⟩

/-- C8: on the input line consisting of just `ls`, the parser does not return a
`ListEntries` instruction with no entries: the `^ls.*` regex accepts the line
(second conjunct), and the code then panics evaluating the byte slice `l[3..]`
of the 2-byte string (modelled by the `sliceOutOfBounds` error), contradicting
the spec, which makes the entry lines optional. -/
theorem c8_bare_ls_panics :
    from_line "ls".data = .error .sliceOutOfBounds ∧
    ("ls".data).isPrefixOf (trim "ls".data) = true :=
  ⟨rfl, rfl⟩

theorem nodeAt_append_singleton (p : Path) :
    ∀ (fs : DirectoryEntry) (name : List Char)
      (cs : List (List Char × DirectoryEntry)) (child : DirectoryEntry),
      nodeAt fs p = some (.Folder cs) → findChild cs name = some child →
      nodeAt fs (p ++ [name]) = some child := by
  induction p with
  | nil =>
      intro fs name cs child hp hc
      have h0 : nodeAt fs [] = some fs := by cases fs <;> rfl
      rw [h0] at hp
      injection hp with hp
      subst hp
      rw [List.nil_append, nodeAt, hc]
      cases child <;> rfl
  | cons x rest ih =>
      intro fs name cs child hp hc
      cases fs with
      | File s => rw [nodeAt] at hp; cases hp
      | Folder cs' =>
          rw [List.cons_append, nodeAt]
          rw [nodeAt] at hp
          cases hf : findChild cs' x with
          | none =>
              rw [hf] at hp
              exact Option.noConfusion hp
          | some c =>
              rw [hf] at hp
              exact ih c name cs child hp hc

/-- Counterexample for C3 as stated: starting from an empty root, the replay
`ls 100 f` then `cd f` succeeds and leaves the cursor on the `File` node `f` —
`get_subfolder` returns the named child without checking its variant. -/
theorem c3_counterexample :
    replay (.Folder []) []
        [.Ls ["100 f".data], .CdIntoFolder "f".data]
      = (.Folder [("f".data, .File 100)], .ok (["f".data] : Path)) ∧
    nodeAt (.Folder [("f".data, .File 100)]) ["f".data]
      = some (.File 100) :=
  ⟨rfl, rfl⟩

/-- C3 (amended): a successful `CdIntoFolder` step requires the cursor to be at
a `Folder` and moves it onto the named child, leaving the tree unchanged — but
onto the child of whatever variant it is, so the new cursor points at a
`Directory` only when the entered child is itself a `Directory` (a `cd` naming
a file child moves the cursor onto that `File`, as the counterexample shows). -/
theorem c3_amended_enter_child (fs : DirectoryEntry) (p : Path) (name : List Char)
    (q : Path) (h : (command fs p (.CdIntoFolder name)).2 = .ok q) :
    (command fs p (.CdIntoFolder name)).1 = fs ∧
    q = p ++ [name] ∧
    ∃ cs child, nodeAt fs p = some (.Folder cs) ∧
      findChild cs name = some child ∧ nodeAt fs q = some child := by
  have h' : get_subfolder_path fs p name = .ok q := h
  unfold get_subfolder_path at h'
  cases hfs : nodeAt fs p with
  | none => rw [hfs] at h'; cases h'
  | some n =>
      rw [hfs] at h'
      cases n with
      | File s => cases h'
      | Folder cs =>
          have h2 : (match findChild cs name with
              | some _ => Except.ok (p ++ [name])
              | none => (Except.error CmdError.notExist : Except CmdError Path))
              = Except.ok q := h'
          cases hc : findChild cs name with
          | none => rw [hc] at h2; cases h2
          | some child =>
              rw [hc] at h2
              have hq : q = p ++ [name] := by
                injection h2 with h''
                exact h''.symm
              subst hq
              exact ⟨rfl, rfl, cs, child, rfl, hc,
                nodeAt_append_singleton p fs name cs child hfs hc⟩

/-- Witness for C3 (amended): entering the directory child `d` of a root. -/
theorem c3_amended_enter_child_witness :
    (command (.Folder [("d".data, .Folder [])]) []
        (.CdIntoFolder "d".data)).1 = .Folder [("d".data, .Folder [])] ∧
    (["d".data] : Path) = [] ++ ["d".data] ∧
    ∃ cs child,
      nodeAt (.Folder [("d".data, .Folder [])]) [] = some (.Folder cs) ∧
      findChild cs "d".data = some child ∧
      nodeAt (.Folder [("d".data, .Folder [])]) ["d".data] = some child :=
  c3_amended_enter_child (.Folder [("d".data, .Folder [])]) [] "d".data
    ["d".data] rfl

/-- Scenario A of the spec (and of the repository's own test
`smallest_folder_over_minimum`): the tree is built by the same
`add_subfile`/`add_subfolder` calls, the ones on the `folder_1`/`folder_2`/
`folder_3` handles becoming updates at those paths. -/
def scenarioA : DirectoryEntry :=
  let r : DirectoryEntry := .Folder []
  let r := add_subfile r "file_1".data 500
  let r := add_subfile r "file_2".data 250
  let r := add_subfolder r "folder_1".data
  let r := modifyAt r ["folder_1".data] (fun f => add_subfile f "file_1_1".data 100)
  let r := modifyAt r ["folder_1".data] (fun f => add_subfile f "file_1_2".data 350)
  let r := modifyAt r ["folder_1".data] (fun f => add_subfolder f "folder_2".data)
  let r := modifyAt r ["folder_1".data] (fun f => add_subfolder f "folder_3".data)
  let r := modifyAt r ["folder_1".data, "folder_2".data]
    (fun f => add_subfile f "file_2_1".data 425)
  let r := modifyAt r ["folder_1".data, "folder_2".data]
    (fun f => add_subfile f "file_2_2".data 600)
  let r := modifyAt r ["folder_1".data, "folder_3".data]
    (fun f => add_subfile f "file_3_1".data 5)
  let r := modifyAt r ["folder_1".data, "folder_3".data]
    (fun f => add_subfile f "file_3_2".data 5)
  r

/-- C9: on Scenario A the root's total size is 2235, the sum of directory sizes
under 650 is 10 (only `folder_3` qualifies), and the smallest directory size
over 6 is 10. -/
theorem c9_scenario_a :
    calculate_size scenarioA = 2235 ∧
    sum_directory_sizes_under_max scenarioA 650 = 10 ∧
    smallest_directory_size_over_min scenarioA 6 = some 10 :=
  ⟨rfl, rfl, rfl⟩

theorem findChild_modifyChild (cs : List (List Char × DirectoryEntry))
    (x : List Char) (rest : Path) (f : DirectoryEntry → DirectoryEntry)
    (c : DirectoryEntry) (h : findChild cs x = some c) :
    findChild (modifyChild cs x rest f) x = some (modifyAt c rest f) := by
  induction cs with
  | nil => cases h
  | cons d tail ih =>
      rw [findChild] at h
      rw [modifyChild]
      by_cases hd : d.1 = x
      · rw [if_pos hd] at h
        injection h with h
        subst h
        rw [if_pos hd, findChild, if_pos hd]
      · rw [if_neg hd] at h
        rw [if_neg hd, findChild, if_neg hd]
        exact ih h

theorem nodeAt_modifyAt_self (fs : DirectoryEntry) (p : Path)
    (n : DirectoryEntry) (f : DirectoryEntry → DirectoryEntry)
    (hp : nodeAt fs p = some n) :
    nodeAt (modifyAt fs p f) p = some (f n) := by
  induction p generalizing fs with
  | nil =>
      have h0 : nodeAt fs [] = some fs := by cases fs <;> rfl
      rw [h0] at hp
      injection hp with hp
      subst hp
      have h1 : modifyAt fs [] f = f fs := by cases fs <;> rfl
      rw [h1]
      cases f fs <;> rfl
  | cons x rest ih =>
      cases fs with
      | File s => rw [nodeAt] at hp; cases hp
      | Folder cs =>
          rw [nodeAt] at hp
          cases hf : findChild cs x with
          | none =>
              rw [hf] at hp
              exact Option.noConfusion hp
          | some c =>
              rw [hf] at hp
              rw [modifyAt, nodeAt, findChild_modifyChild cs x rest f c hf]
              exact ih c hp

/-- The node produced by one entry line, with an unparseable line leaving the
node unchanged (used to describe partial effects of an `Ls`). -/
def applyEntryLine (n : DirectoryEntry) (l : List Char) : DirectoryEntry :=
  match parse_line_to_directoryentry n l with
  | .ok n' => n'
  | .error _ => n

theorem parse_ok_of_lineParses (n : DirectoryEntry) (l : List Char)
    (h : lineParses l = true) :
    parse_line_to_directoryentry n l = .ok (applyEntryLine n l) := by
  cases hd : dirEntryMatch (trim l) with
  | some name => simp [applyEntryLine, parse_line_to_directoryentry, hd]
  | none =>
      cases hf : fileEntryMatch (trim l) with
      | some dn =>
          have hb : natOfDigits dn.1 < 2 ^ 32 := by
            unfold lineParses at h
            rw [hd, hf] at h
            simpa using h
          simp only [applyEntryLine, parse_line_to_directoryentry, hd, hf]
          rw [if_pos hb]
      | none =>
          unfold lineParses at h
          rw [hd, hf] at h
          simp at h

theorem parse_err_of_unparseable (n : DirectoryEntry) (l : List Char)
    (h : lineUnparseable l = true) :
    parse_line_to_directoryentry n l = .error (.noMatch (trim l)) := by
  unfold lineUnparseable at h
  cases hd : dirEntryMatch (trim l) with
  | some name => rw [hd] at h; simp at h
  | none =>
      cases hf : fileEntryMatch (trim l) with
      | some dn => rw [hd, hf] at h; simp at h
      | none => simp [parse_line_to_directoryentry, hd, hf]

theorem runLsNode_first_bad (lines : List (List Char)) :
    ∀ (n : DirectoryEntry) (i : Nat) (hi : i < lines.length),
      (lines.take i).all lineParses = true →
      lineUnparseable (lines.get ⟨i, hi⟩) = true →
      runLsNode n lines = ((lines.take i).foldl applyEntryLine n,
        some (.noMatch (trim (lines.get ⟨i, hi⟩)))) := by
  induction lines with
  | nil => intro n i hi; exact absurd hi (by simp)
  | cons l rest ih =>
      intro n i hi hok hbad
      cases i with
      | zero =>
          rw [runLsNode, parse_err_of_unparseable n l (by simpa using hbad)]
          simp
      | succ j =>
          have hl : lineParses l = true := by
            rw [List.take_succ_cons, List.all_cons] at hok
            exact (Bool.and_eq_true_iff.mp hok).1
          have hok' : (rest.take j).all lineParses = true := by
            rw [List.take_succ_cons, List.all_cons] at hok
            exact (Bool.and_eq_true_iff.mp hok).2
          rw [runLsNode, parse_ok_of_lineParses n l hl]
          rw [List.take_succ_cons, List.foldl_cons]
          exact ih (applyEntryLine n l) j (by simpa using hi) hok' hbad

/-- C10: applying a `ListEntries` instruction is not atomic on error — when the
`i` preceding entry lines are each successfully applied (they match an entry
regex and, for file entries, their size fits in a `u32`, so the program neither
errors nor panics on them) and the entry line at index `i` is unparseable
(matches neither entry regex), the command fails with that line's syntax error,
the tree already holds the insertions of the `i` preceding lines at the
cursor's node, which remain there (the cursor's node in the returned tree is
exactly the partially-updated node), and the cursor path is untouched by the
failing `Ls`. -/
theorem c10_ls_not_atomic (fs : DirectoryEntry) (p : Path) (n : DirectoryEntry)
    (lines : List (List Char)) (i : Nat)
    (hn : nodeAt fs p = some n)
    (hi : i < lines.length)
    (hok : (lines.take i).all lineParses = true)
    (hbad : lineUnparseable (lines.get ⟨i, hi⟩) = true) :
    command fs p (.Ls lines)
      = (modifyAt fs p (fun _ => (lines.take i).foldl applyEntryLine n),
         .error (.noMatch (trim (lines.get ⟨i, hi⟩)))) ∧
    nodeAt (modifyAt fs p (fun _ => (lines.take i).foldl applyEntryLine n)) p
      = some ((lines.take i).foldl applyEntryLine n) := by
  constructor
  · show (match nodeAt fs p with
        | some m =>
            match runLsNode m lines with
            | (n', none) => (modifyAt fs p (fun _ => n'), Except.ok p)
            | (n', some e) => (modifyAt fs p (fun _ => n'), Except.error e)
        | none => (fs, Except.error CmdError.invalidCursor)) = _
    rw [hn]
    show (match runLsNode n lines with
        | (n', none) => (modifyAt fs p (fun _ => n'), Except.ok p)
        | (n', some e) => (modifyAt fs p (fun _ => n'), Except.error e)) = _
    rw [runLsNode_first_bad lines n i hi hok hbad]
  · exact nodeAt_modifyAt_self fs p n _ hn

/-- Witness for C10: replaying `ls` with entries `100 a` and `***` from an
empty root inserts the file `a`, then fails on `***` with its syntax error,
leaving `a` in the tree at the unchanged cursor. -/
theorem c10_ls_not_atomic_witness :
    command (.Folder []) [] (.Ls ["100 a".data, "***".data])
      = (.Folder [("a".data, .File 100)],
         .error (.noMatch "***".data)) ∧
    nodeAt (DirectoryEntry.Folder [("a".data, .File 100)]) []
      = some (.Folder [("a".data, .File 100)]) :=
  c10_ls_not_atomic (.Folder []) [] (.Folder [])
    ["100 a".data, "***".data] 1 rfl (by decide) (by decide) (by decide)

/-- Witness for C4 at a concrete tree: the query over the tree
`[a ↦ 3, b ↦ [c ↦ 4]]` with minimum 3 equals the minimum over its qualifying
directories. -/
theorem c4_smallest_size_over_min_correct_witness :
    smallest_directory_size_over_min
        (.Folder [(['a'], .File 3), (['b'], .Folder [(['c'], .File 4)])]) 3
      = (((allFolders (.Folder [(['a'], .File 3),
            (['b'], .Folder [(['c'], .File 4)])])).map calculate_size).filter
          (fun x => 3 < x)).min? :=
  (c4_smallest_size_over_min_correct
    (.Folder [(['a'], .File 3), (['b'], .Folder [(['c'], .File 4)])]) 3).1

end Day7
